import Mathlib

/-!
Verification of `paranoid_crypto/lib/ec_single_checks.py`.

The file embeds the three EC single checks (`CheckValidECKey`,
`CheckWeakCurve`, `CheckWeakECPrivateKey`) as pure Lean functions.
The modules `ec_util`, `util`, `consts` and `paranoid_pb2` are not part
of the given sources; their interfaces are modelled abstractly from the
spec: a curve is a record carrying its group order `n` together with the
two methods the checks call (`IsValidPublicKey`, `ExtendedBatchDL`), the
curve factory is a finite table of identifier/optional-curve pairs
(Python dict semantics: `.get` flattens an absent key and a stored
`None` to the same outcome), and the mutations performed through
`util.SetTestResult` / `util.AttachInfo` are reified as explicit write
events applied to the artifact list.
-/

/-- Fuel-driven helper for `bitLength`: counts the halvings needed to
reach zero. The fuel is always sufficient since a number's bit length
never exceeds the number plus one. -/
def bitLengthAux : Nat → Nat → Nat
  | 0, _ => 0
  | fuel + 1, n => if n = 0 then 0 else bitLengthAux fuel (n / 2) + 1

/-- Bit length of a natural number, as Python's `int.bit_length()` for
nonnegative inputs: `bitLength 0 = 0`, and for positive `n` it is one
more than the floor of the base-2 logarithm. -/
def bitLength (n : Nat) : Nat :=
  bitLengthAux (n + 1) n

/-- Python's `enumerate` starting at index `k`: pairs each list element
with its index. -/
def enumFromIdx (k : Nat) : List α → List (Nat × α)
  | [] => []
  | a :: as => (k, a) :: enumFromIdx (k + 1) as

/-- Hexadecimal digit character, lowercase, as Python's `format(_, "x")`
uses: 0-9 then a-f. -/
def hexDigitChar (d : Nat) : Char :=
  if d < 10 then Char.ofNat (48 + d) else Char.ofNat (87 + d)

/-- Fuel-driven big-endian hexadecimal digit expansion. -/
def hexDigitsAux : Nat → Nat → List Char
  | 0, _ => []
  | fuel + 1, n =>
    if n < 16 then [hexDigitChar n]
    else hexDigitsAux fuel (n / 16) ++ [hexDigitChar (n % 16)]

/-- Modelled from the spec: the rendering `format(int(d), "x")` used at
line 137 of the source, "rendered as a hexadecimal big integer" —
lowercase hexadecimal with no prefix, `"0"` for zero. -/
def toHex (n : Nat) : String :=
  String.mk (hexDigitsAux (n + 1) n)

/-- A public point; the checks only pass points through to the curve
methods, so the representation is just the raw coordinate pair. -/
abbrev Point := Int × Int

/-- Modelled from the spec: the fields of `paranoid_pb2.ECKey.ec_info`
that the checks read — a curve identifier and raw point coordinates. -/
structure ECInfo where
  curve_type : Nat
  x : Int
  y : Int
deriving DecidableEq, Repr

/-- Modelled from the spec: `ec_util.PublicPoint(ec_info)` builds the
point from the artifact's raw coordinates. -/
def PublicPoint (info : ECInfo) : Point :=
  (info.x, info.y)

/-- Modelled from the spec: the curve parameters and the two `ec_util`
curve methods invoked by the checks. `n` is the group order;
`IsValidPublicKey` decides point validity; `ExtendedBatchDL` returns one
optional discrete log per input point. -/
structure Curve where
  n : Nat
  IsValidPublicKey : Point → Bool
  ExtendedBatchDL : List Point → List (Option Nat)

/-- Modelled from the spec: `ec_util.CURVE_FACTORY`, a dict from curve
identifiers to curves, where an identifier may also be mapped to `None`.
A list of pairs models the dict; Python dict keys are distinct, which
theorems needing that fact assume via a `Nodup` hypothesis. -/
abbrev Registry := List (Nat × Option Curve)

/-- `CURVE_FACTORY.get(curve_type, None)`: an absent identifier and an
identifier stored with value `None` both yield `None`. -/
def factoryGet (reg : Registry) (curve_type : Nat) : Option Curve :=
  (reg.lookup curve_type).join

/-- Severity tags of `paranoid_pb2.SeverityType` used by these checks. -/
inductive SeverityType
  | SEVERITY_MEDIUM
  | SEVERITY_CRITICAL
deriving DecidableEq, Repr

/-- The per-artifact test result: a severity tag and the flagged bit. -/
structure TestResult where
  severity : SeverityType
  result : Bool
deriving DecidableEq, Repr

/-- Modelled from the spec: `self._CreateTestResult()` of `base_check`
creates a fresh result with the check's severity and `result = False`. -/
def CreateTestResult (sev : SeverityType) : TestResult :=
  { severity := sev, result := false }

/-- Modelled from the spec: the mutable `test_info` slot of an artifact —
an optional test result plus a mapping of named diagnostic strings. -/
structure TestInfo where
  testResult : Option TestResult
  attachedInfo : List (String × String)
deriving DecidableEq, Repr

/-- An EC key artifact: the read-only `ec_info` and the mutable
`test_info`. -/
structure ECKey where
  ec_info : ECInfo
  test_info : TestInfo
deriving DecidableEq, Repr

/-- Modelled from the spec: `util.SetTestResult(test_info, test_result)`
stores the result in the artifact's result slot. -/
def SetTestResult (ti : TestInfo) (tr : TestResult) : TestInfo :=
  { ti with testResult := some tr }

/-- Insert-or-update of a name/value pair in an association list. -/
def updateAssoc (l : List (String × String)) (name value : String) :
    List (String × String) :=
  match l with
  | [] => [(name, value)]
  | (n, v) :: rest =>
    if n = name then (n, value) :: rest
    else (n, v) :: updateAssoc rest name value

/-- Modelled from the spec: `util.AttachInfo(test_info, name, value)` —
"`attachInfo(artifact, name, value)` for diagnostics", a mapping of
named diagnostic strings, so attaching under an existing name updates
its value. -/
def AttachInfo (ti : TestInfo) (name value : String) : TestInfo :=
  { ti with attachedInfo := updateAssoc ti.attachedInfo name value }

/-- Modelled from the spec: `consts.INFO_NAME_DISCRETE_LOG`, the fixed
diagnostic name under which a recovered discrete log is attached. -/
def INFO_NAME_DISCRETE_LOG : String := "discrete_log"

/-- One mutation performed by a check on the artifact batch: either a
`util.SetTestResult` or a `util.AttachInfo` on the artifact at the given
batch index. -/
inductive WriteEvent
  | setResult (idx : Nat) (tr : TestResult)
  | attach (idx : Nat) (name value : String)
deriving DecidableEq, Repr

/-- The artifact index a write event targets. -/
def WriteEvent.target : WriteEvent → Nat
  | .setResult idx _ => idx
  | .attach idx _ _ => idx

/-- Apply a function to the element at one index of a list. -/
def modifyIdx (f : α → α) : Nat → List α → List α
  | _, [] => []
  | 0, a :: as => f a :: as
  | i + 1, a :: as => a :: modifyIdx f i as

/-- Apply one write event to the artifact batch. -/
def applyEvent (arts : List ECKey) : WriteEvent → List ECKey
  | .setResult idx tr =>
    modifyIdx (fun k => { k with test_info := SetTestResult k.test_info tr }) idx arts
  | .attach idx name value =>
    modifyIdx (fun k => { k with test_info := AttachInfo k.test_info name value }) idx arts

/-- Apply a trace of write events, in order, to the artifact batch. -/
def applyEvents (arts : List ECKey) (es : List WriteEvent) : List ECKey :=
  es.foldl applyEvent arts

/-- `CheckValidECKey.Check`, per-artifact step (lines 46-56 of the
source): the test result is flagged when the curve is unknown or the
public point is invalid. The step reads only `ec_info`. -/
def checkValidStep (reg : Registry) (info : ECInfo) : TestResult :=
  let test_result := CreateTestResult .SEVERITY_MEDIUM
  match factoryGet reg info.curve_type with
  | none => { test_result with result := true }
  | some curve =>
    if ¬ (curve.IsValidPublicKey (PublicPoint info) = true) then
      { test_result with result := true }
    else test_result

/-- The write trace of `CheckValidECKey.Check`: one `SetTestResult` per
artifact, in batch order (line 57 runs for every artifact). -/
def CheckValidECKey.writes (reg : Registry) (infos : List ECInfo) : List WriteEvent :=
  (enumFromIdx 0 infos).map fun p => WriteEvent.setResult p.1 (checkValidStep reg p.2)

/-- The boolean returned by `CheckValidECKey.Check`: `any_weak`
accumulates exactly the flagged artifacts (lines 44-58). -/
def CheckValidECKey.anyWeak (reg : Registry) (infos : List ECInfo) : Bool :=
  infos.any fun info => (checkValidStep reg info).result

/-- `CheckValidECKey.Check` (lines 43-58): returns `any_weak` and the
artifact batch after the per-artifact writes. -/
def CheckValidECKey.Check (reg : Registry) (artifacts : List ECKey) :
    Bool × List ECKey :=
  (CheckValidECKey.anyWeak reg (artifacts.map (·.ec_info)),
   applyEvents artifacts (CheckValidECKey.writes reg (artifacts.map (·.ec_info))))

/-- `CheckWeakCurve.Check`, per-artifact step (lines 77-87): `none`
means the artifact is skipped (`continue` at line 81, unknown curve);
otherwise the result is flagged iff the curve order has fewer than 224
bits. -/
def checkWeakCurveStep (reg : Registry) (info : ECInfo) : Option TestResult :=
  let minimal_bit_length := 224
  match factoryGet reg info.curve_type with
  | none => none
  | some curve =>
    let test_result := CreateTestResult .SEVERITY_MEDIUM
    if bitLength curve.n < minimal_bit_length then
      some { test_result with result := true }
    else some test_result

/-- The write trace of `CheckWeakCurve.Check`: one `SetTestResult` per
artifact whose curve is known, none for a skipped artifact. -/
def CheckWeakCurve.writes (reg : Registry) (infos : List ECInfo) : List WriteEvent :=
  ((enumFromIdx 0 infos).map fun p =>
    match checkWeakCurveStep reg p.2 with
    | none => []
    | some tr => [WriteEvent.setResult p.1 tr]).flatten

/-- The boolean returned by `CheckWeakCurve.Check` (lines 72-88). -/
def CheckWeakCurve.anyWeak (reg : Registry) (infos : List ECInfo) : Bool :=
  infos.any fun info =>
    match checkWeakCurveStep reg info with
    | none => false
    | some tr => tr.result

/-- `CheckWeakCurve.Check` (lines 71-88). -/
def CheckWeakCurve.Check (reg : Registry) (artifacts : List ECKey) :
    Bool × List ECKey :=
  (CheckWeakCurve.anyWeak reg (artifacts.map (·.ec_info)),
   applyEvents artifacts (CheckWeakCurve.writes reg (artifacts.map (·.ec_info))))

/-- Line 129: the per-curve batch — artifacts (paired with their batch
index) whose curve identifier equals `curve_id` exactly. -/
def batchKeys (infos : List ECInfo) (curve_id : Nat) : List (Nat × ECInfo) :=
  (enumFromIdx 0 infos).filter fun p => p.2.curve_type == curve_id

/-- Lines 132-133: the batched discrete logs for one curve batch. -/
def batchDLs (curve : Curve) (keys : List (Nat × ECInfo)) : List (Option Nat) :=
  curve.ExtendedBatchDL (keys.map fun p => PublicPoint p.2)

/-- Lines 134-144, per key: a found discrete log is attached in hex and
the key flagged; otherwise only the fresh (unflagged) result is set. -/
def privKeyEventsFor (idx : Nat) (od : Option Nat) : List WriteEvent :=
  match od with
  | some dl =>
    [WriteEvent.attach idx INFO_NAME_DISCRETE_LOG (toHex dl),
     WriteEvent.setResult idx { severity := .SEVERITY_CRITICAL, result := true }]
  | none =>
    [WriteEvent.setResult idx { severity := .SEVERITY_CRITICAL, result := false }]

/-- The write trace of the inner loop (lines 134-144) for one curve
batch: the `i`-th key of the batch is paired with `discrete_logs[i]`. -/
def privBatchEvents (curve : Curve) (keys : List (Nat × ECInfo)) : List WriteEvent :=
  let dls := batchDLs curve keys
  ((enumFromIdx 0 keys).map fun p => privKeyEventsFor p.2.1 (dls.getD p.1 none)).flatten

/-- The contribution of one curve batch to `any_weak`: some key of the
batch has a discrete log. -/
def privBatchAnyWeak (curve : Curve) (keys : List (Nat × ECInfo)) : Bool :=
  let dls := batchDLs curve keys
  (enumFromIdx 0 keys).any fun p => (dls.getD p.1 none).isSome

/-- The write trace of `CheckWeakECPrivateKey.Check` (lines 121-145):
registry entries stored as `None` are skipped (line 124-125), empty
batches are skipped (line 130-131). -/
def CheckWeakECPrivateKey.writes (reg : Registry) (infos : List ECInfo) :
    List WriteEvent :=
  (reg.map fun entry =>
    match entry.2 with
    | none => []
    | some curve =>
      let keys := batchKeys infos entry.1
      if keys.isEmpty then [] else privBatchEvents curve keys).flatten

/-- The boolean returned by `CheckWeakECPrivateKey.Check`. -/
def CheckWeakECPrivateKey.anyWeak (reg : Registry) (infos : List ECInfo) : Bool :=
  reg.any fun entry =>
    match entry.2 with
    | none => false
    | some curve =>
      let keys := batchKeys infos entry.1
      if keys.isEmpty then false else privBatchAnyWeak curve keys

/-- `CheckWeakECPrivateKey.Check` (lines 121-145). -/
def CheckWeakECPrivateKey.Check (reg : Registry) (artifacts : List ECKey) :
    Bool × List ECKey :=
  (CheckWeakECPrivateKey.anyWeak reg (artifacts.map (·.ec_info)),
   applyEvents artifacts (CheckWeakECPrivateKey.writes reg (artifacts.map (·.ec_info))))

/-- A sample curve used to instantiate theorems on concrete inputs: a
given order, all points valid, no discrete log ever found. -/
def sampleCurve (order : Nat) : Curve :=
  { n := order
    IsValidPublicKey := fun _ => true
    ExtendedBatchDL := fun points => points.map fun _ => none }

/-- A sample curve whose batched search recovers the given discrete log
for every point. -/
def sampleCurveDL (order dl : Nat) : Curve :=
  { n := order
    IsValidPublicKey := fun _ => true
    ExtendedBatchDL := fun points => points.map fun _ => some dl }

/-- Number of `SetTestResult` writes a trace performs on the artifact at
index `idx` — how many times that artifact's result slot is written. -/
def countResultWrites (es : List WriteEvent) (idx : Nat) : Nat :=
  es.countP fun e =>
    match e with
    | .setResult i _ => i == idx
    | .attach _ _ _ => false

/-- Whether a write event records a flagged (weak) test result. -/
def isFlaggedResult : WriteEvent → Bool
  | .setResult _ tr => tr.result
  | .attach _ _ _ => false

/-- The final content of the result slot of the artifact at index `idx`
after a trace of write events runs (later writes overwrite earlier
ones); `none` when the trace never writes that slot. -/
def assignedResult (es : List WriteEvent) (idx : Nat) : Option TestResult :=
  es.foldl (fun acc e =>
    match e with
    | .setResult i tr => if i = idx then some tr else acc
    | .attach _ _ _ => acc) none

/- General lemmas about the enumeration, traces and the registry. -/

theorem enumFromIdx_length (k : Nat) (l : List α) :
    (enumFromIdx k l).length = l.length := by
  induction l generalizing k with
  | nil => rfl
  | cons a as ih => simp [enumFromIdx, ih]

theorem enumFromIdx_map_fst (k : Nat) (l : List α) :
    (enumFromIdx k l).map Prod.fst = List.range' k l.length := by
  induction l generalizing k with
  | nil => rfl
  | cons a as ih => simp [enumFromIdx, ih, List.range'_succ]

theorem enumFromIdx_map_snd (k : Nat) (l : List α) :
    (enumFromIdx k l).map Prod.snd = l := by
  induction l generalizing k with
  | nil => rfl
  | cons a as ih => simp [enumFromIdx, ih]

theorem mem_enumFromIdx {p : Nat × α} {l : List α} {k : Nat} :
    p ∈ enumFromIdx k l ↔ k ≤ p.1 ∧ l[p.1 - k]? = some p.2 := by
  obtain ⟨i, b⟩ := p
  induction l generalizing k with
  | nil => simp [enumFromIdx]
  | cons a as ih =>
    simp only [enumFromIdx, List.mem_cons, ih, Prod.mk.injEq]
    constructor
    · rintro (⟨rfl, rfl⟩ | ⟨h1, h2⟩)
      · simp
      · refine ⟨by omega, ?_⟩
        have h3 : i - k = (i - (k + 1)) + 1 := by omega
        rw [h3, List.getElem?_cons_succ]
        exact h2
    · rintro ⟨h1, h2⟩
      rcases Nat.eq_or_lt_of_le h1 with heq | hlt
      · rw [← heq, Nat.sub_self, List.getElem?_cons_zero] at h2
        left
        exact ⟨heq.symm, by injection h2 with h; exact h.symm⟩
      · right
        refine ⟨by omega, ?_⟩
        have h3 : i - k = (i - (k + 1)) + 1 := by omega
        rw [h3, List.getElem?_cons_succ] at h2
        exact h2

theorem enumFromIdx_getElem? (k i : Nat) (l : List α) :
    (enumFromIdx k l)[i]? = l[i]?.map fun a => (k + i, a) := by
  induction l generalizing k i with
  | nil => simp [enumFromIdx]
  | cons a as ih =>
    cases i with
    | zero => simp [enumFromIdx]
    | succ j =>
      simp only [enumFromIdx, List.getElem?_cons_succ, ih]
      have h : k + 1 + j = k + (j + 1) := by omega
      rw [h]

theorem any_map_general (f : α → β) (l : List α) (p : β → Bool) :
    (l.map f).any p = l.any fun a => p (f a) := by
  induction l with
  | nil => rfl
  | cons a as ih => simp [ih]

theorem countP_flatten_map (p : β → Bool) (f : α → List β) (l : List α) :
    ((l.map f).flatten).countP p = (l.map fun a => (f a).countP p).sum := by
  induction l with
  | nil => rfl
  | cons a as ih => simp [List.countP_append, ih]

theorem countP_enumFromIdx_eq (l : List α) (k idx : Nat) (pr : Nat × α → Bool)
    (hpr : ∀ p, pr p = true → p.1 = idx) :
    (enumFromIdx k l).countP pr =
      if k ≤ idx then
        (l[idx - k]?.elim 0 fun a => if pr (idx, a) then 1 else 0)
      else 0 := by
  induction l generalizing k with
  | nil => simp [enumFromIdx]
  | cons a as ih =>
    rw [enumFromIdx, List.countP_cons, ih]
    rcases Nat.lt_trichotomy k idx with hk | rfl | hk
    · have hpra : pr (k, a) = false := by
        cases hpk : pr (k, a)
        · rfl
        · exact absurd (hpr _ hpk) (by omega)
      have h1 : k + 1 ≤ idx := by omega
      have h2 : k ≤ idx := by omega
      have h3 : idx - k = (idx - (k + 1)) + 1 := by omega
      simp [hpra, h1, h2, h3]
    · have h1 : ¬ (k + 1 ≤ k) := by omega
      simp [h1, Nat.sub_self]
    · have h1 : ¬ (k + 1 ≤ idx) := by omega
      have h2 : ¬ (k ≤ idx) := by omega
      have hpra : pr (k, a) = false := by
        cases hpk : pr (k, a)
        · rfl
        · exact absurd (hpr _ hpk) (by omega)
      simp [h1, h2, hpra]

theorem lookup_eq_some_of_mem_nodup {reg : Registry}
    (hnd : (reg.map Prod.fst).Nodup) {k : Nat} {v : Option Curve}
    (h : (k, v) ∈ reg) : reg.lookup k = some v := by
  induction reg with
  | nil => cases h
  | cons e rest ih =>
    obtain ⟨e1, e2⟩ := e
    rw [List.map_cons] at hnd
    rcases List.mem_cons.mp h with heq | hmem
    · injection heq with h1 h2
      subst h1; subst h2
      simp [List.lookup]
    · have hne : k ≠ e1 := by
        intro hek
        subst hek
        exact (List.nodup_cons.mp hnd).1 (List.mem_map.mpr ⟨(k, v), hmem, rfl⟩)
      have hbeq : (k == e1) = false := by
        rw [beq_eq_false_iff_ne]
        exact hne
      simp only [List.lookup, hbeq]
      exact ih (List.nodup_cons.mp hnd).2 hmem

theorem lookup_mem {reg : Registry} {k : Nat} {v : Option Curve}
    (h : reg.lookup k = some v) : (k, v) ∈ reg := by
  induction reg with
  | nil => cases h
  | cons e rest ih =>
    obtain ⟨e1, e2⟩ := e
    cases hbeq : (k == e1) with
    | true =>
      have hk : k = e1 := by simpa using hbeq
      simp only [List.lookup, hbeq] at h
      injection h with h2
      subst hk; subst h2
      exact List.mem_cons_self _ _
    | false =>
      simp only [List.lookup, hbeq] at h
      exact List.mem_cons_of_mem _ (ih h)

theorem mem_of_factoryGet_eq_some {reg : Registry} {ct : Nat} {c : Curve}
    (h : factoryGet reg ct = some c) : (ct, some c) ∈ reg := by
  rw [factoryGet] at h
  cases hl : reg.lookup ct with
  | none => rw [hl] at h; cases h
  | some v =>
    rw [hl] at h
    cases v with
    | none => cases h
    | some c2 =>
      have : c2 = c := by simpa [Option.join] using h
      subst this
      exact lookup_mem hl

theorem factoryGet_of_mem_nodup {reg : Registry}
    (hnd : (reg.map Prod.fst).Nodup) {ct : Nat} {v : Option Curve}
    (h : (ct, v) ∈ reg) : factoryGet reg ct = v := by
  rw [factoryGet, lookup_eq_some_of_mem_nodup hnd h]
  cases v <;> simp [Option.join]

theorem registry_sum_indicator (reg : Registry) (ct : Nat)
    (hnd : (reg.map Prod.fst).Nodup) (f : Nat × Option Curve → Nat)
    (hf0 : ∀ e, e.1 ≠ ct → f e = 0) :
    (reg.map f).sum = ((reg.lookup ct).elim 0 fun v => f (ct, v)) := by
  induction reg with
  | nil => rfl
  | cons e rest ih =>
    obtain ⟨e1, e2⟩ := e
    rw [List.map_cons] at hnd
    by_cases heq : e1 = ct
    · subst heq
      have hall : ∀ x ∈ rest.map f, x = 0 := by
        intro x hx
        obtain ⟨p, hp, rfl⟩ := List.mem_map.mp hx
        apply hf0
        intro hpe
        exact (List.nodup_cons.mp hnd).1 (hpe ▸ List.mem_map.mpr ⟨p, hp, rfl⟩)
      simp [List.lookup, List.sum_eq_zero hall]
    · have : (ct == e1) = false := by
        rw [beq_eq_false_iff_ne]
        exact fun hc => heq hc.symm
      simp only [List.map_cons, List.sum_cons, List.lookup, this,
        ih (List.nodup_cons.mp hnd).2]
      rw [hf0 (e1, e2) heq]
      simp

theorem assignedResult_foldl_acc (es : List WriteEvent) (idx : Nat)
    (acc : Option TestResult) :
    es.foldl (fun acc e =>
      match e with
      | WriteEvent.setResult i tr => if i = idx then some tr else acc
      | WriteEvent.attach _ _ _ => acc) acc =
      (assignedResult es idx).elim acc some := by
  induction es generalizing acc with
  | nil => rfl
  | cons e rest ih =>
    rw [List.foldl_cons, ih]
    have h2 : assignedResult (e :: rest) idx =
        (assignedResult rest idx).elim
          (match e with
           | WriteEvent.setResult i tr => if i = idx then some tr else none
           | WriteEvent.attach _ _ _ => none) some := by
      simp only [assignedResult, List.foldl_cons]
      exact ih _
    rw [h2]
    cases har : assignedResult rest idx with
    | some tr2 => rfl
    | none =>
      simp only [Option.elim]
      cases e with
      | setResult i tr =>
        by_cases hi : i = idx <;> simp [hi]
      | attach i nm v => rfl

theorem assignedResult_append (es1 es2 : List WriteEvent) (idx : Nat) :
    assignedResult (es1 ++ es2) idx =
      (assignedResult es2 idx).elim (assignedResult es1 idx) some := by
  simp only [assignedResult, List.foldl_append]
  exact assignedResult_foldl_acc es2 idx _

theorem assignedResult_eq_none {es : List WriteEvent} {idx : Nat}
    (h : ∀ e ∈ es, e.target ≠ idx) : assignedResult es idx = none := by
  induction es with
  | nil => rfl
  | cons e rest ih =>
    have : assignedResult (e :: rest) idx =
        (assignedResult rest idx).elim (assignedResult [e] idx) some :=
      assignedResult_append [e] rest idx
    rw [this, ih fun x hx => h x (List.mem_cons_of_mem e hx)]
    cases e with
    | setResult i tr =>
      have : i ≠ idx := h (WriteEvent.setResult i tr) (List.mem_cons_self _ _)
      simp [assignedResult, this]
    | attach i nm v => rfl

theorem assignedResult_weakCurve_aux (reg : Registry) (l : List ECInfo) (k j : Nat) :
    assignedResult (((enumFromIdx k l).map fun p =>
        match checkWeakCurveStep reg p.2 with
        | none => []
        | some tr => [WriteEvent.setResult p.1 tr]).flatten) (k + j) =
      (l[j]?.elim none fun info => checkWeakCurveStep reg info) := by
  induction l generalizing k j with
  | nil => simp [enumFromIdx, assignedResult]
  | cons a as ih =>
    rw [enumFromIdx, List.map_cons, List.flatten_cons,
      assignedResult_append]
    have htargets : ∀ e ∈ ((enumFromIdx (k + 1) as).map fun p =>
        match checkWeakCurveStep reg p.2 with
        | none => []
        | some tr => [WriteEvent.setResult p.1 tr]).flatten, k + 1 ≤ e.target := by
      intro e he
      obtain ⟨chunk, hchunk, hech⟩ := List.mem_flatten.mp he
      obtain ⟨p, hp, rfl⟩ := List.mem_map.mp hchunk
      have hk := (mem_enumFromIdx.mp hp).1
      cases hstep : checkWeakCurveStep reg p.2 with
      | none => rw [hstep] at hech; cases hech
      | some tr =>
        rw [hstep] at hech
        rcases List.mem_singleton.mp hech with rfl
        exact hk
    cases j with
    | zero =>
      have hnone : assignedResult (((enumFromIdx (k + 1) as).map fun p =>
          match checkWeakCurveStep reg p.2 with
          | none => []
          | some tr => [WriteEvent.setResult p.1 tr]).flatten) (k + 0) = none := by
        apply assignedResult_eq_none
        intro e he
        have := htargets e he
        omega
      rw [hnone]
      simp only [Option.elim, List.getElem?_cons_zero]
      cases hstep : checkWeakCurveStep reg a with
      | none => simp [assignedResult]
      | some tr => simp [assignedResult]
    | succ j2 =>
      have harr : k + (j2 + 1) = (k + 1) + j2 := by omega
      rw [harr, ih (k + 1) j2]
      have hchunk0 : assignedResult (match checkWeakCurveStep reg a with
          | none => []
          | some tr => [WriteEvent.setResult k tr]) ((k + 1) + j2) = none := by
        apply assignedResult_eq_none
        intro e he
        cases hstep : checkWeakCurveStep reg a with
        | none => rw [hstep] at he; cases he
        | some tr =>
          rw [hstep] at he
          rcases List.mem_singleton.mp he with rfl
          simp [WriteEvent.target]
          omega
      rw [hchunk0, List.getElem?_cons_succ]
      cases has : as[j2]? with
      | none => rfl
      | some info =>
        cases hstep : checkWeakCurveStep reg info with
        | none => simp [hstep]
        | some tr => simp [hstep]

theorem weakCurve_assignedResult (reg : Registry) (infos : List ECInfo) (idx : Nat) :
    assignedResult (CheckWeakCurve.writes reg infos) idx =
      (infos[idx]?.elim none fun info => checkWeakCurveStep reg info) := by
  have h := assignedResult_weakCurve_aux reg infos 0 idx
  rw [Nat.zero_add] at h
  exact h

theorem filter_enumFromIdx_map_snd (q : α → Bool) (k : Nat) (l : List α) :
    ((enumFromIdx k l).filter fun p => q p.2).map Prod.snd = l.filter q := by
  induction l generalizing k with
  | nil => rfl
  | cons a as ih =>
    rw [enumFromIdx]
    cases hq : q a with
    | true => simp [List.filter_cons, hq, ih]
    | false => simp [List.filter_cons, hq, ih]

theorem batchKeys_map_snd (infos : List ECInfo) (cid : Nat) :
    (batchKeys infos cid).map Prod.snd =
      infos.filter fun info => info.curve_type == cid := by
  rw [batchKeys]
  exact filter_enumFromIdx_map_snd (fun info => info.curve_type == cid) 0 infos

theorem nodup_batchKeys_fst (infos : List ECInfo) (cid : Nat) :
    ((batchKeys infos cid).map Prod.fst).Nodup := by
  have hsub : (batchKeys infos cid).Sublist (enumFromIdx 0 infos) :=
    List.filter_sublist _
  have hmsub : ((batchKeys infos cid).map Prod.fst).Sublist
      ((enumFromIdx 0 infos).map Prod.fst) := hsub.map _
  rw [enumFromIdx_map_fst] at hmsub
  have hr : (List.range' 0 infos.length).Nodup := by
    simp [List.nodup_range']
  exact hr.sublist hmsub

theorem mem_batchKeys {infos : List ECInfo} {cid : Nat} {p : Nat × ECInfo} :
    p ∈ batchKeys infos cid ↔
      infos[p.1]? = some p.2 ∧ p.2.curve_type = cid := by
  rw [batchKeys, List.mem_filter, mem_enumFromIdx]
  simp [Nat.zero_le]

theorem any_enumFromIdx_fst (P : Nat → Bool) (k : Nat) (l : List α) :
    (enumFromIdx k l).any (fun p => P p.1) = (List.range' k l.length).any P := by
  induction l generalizing k with
  | nil => rfl
  | cons a as ih =>
    rw [enumFromIdx, List.any_cons, List.length_cons, List.range'_succ,
      List.any_cons, ih]

theorem privBatchAnyWeak_eq_snd (c : Curve) (keys : List (Nat × ECInfo)) :
    privBatchAnyWeak c keys =
      (List.range' 0 keys.length).any fun i =>
        ((c.ExtendedBatchDL ((keys.map Prod.snd).map PublicPoint)).getD i
          none).isSome := by
  rw [privBatchAnyWeak, batchDLs]
  rw [show (keys.map fun p => PublicPoint p.2) =
      (keys.map Prod.snd).map PublicPoint from by rw [List.map_map]; rfl]
  exact any_enumFromIdx_fst (fun i =>
    ((c.ExtendedBatchDL ((keys.map Prod.snd).map PublicPoint)).getD i
      none).isSome) 0 keys

theorem isEmpty_eq_isEmpty_map (f : α → β) (l : List α) :
    (l.map f).isEmpty = l.isEmpty := by
  cases l <;> rfl

theorem checkValidStep_congr {reg1 reg2 : Registry}
    (h : ∀ ct, factoryGet reg1 ct = factoryGet reg2 ct) (info : ECInfo) :
    checkValidStep reg1 info = checkValidStep reg2 info := by
  rw [checkValidStep, checkValidStep, h]

theorem checkWeakCurveStep_congr {reg1 reg2 : Registry}
    (h : ∀ ct, factoryGet reg1 ct = factoryGet reg2 ct) (info : ECInfo) :
    checkWeakCurveStep reg1 info = checkWeakCurveStep reg2 info := by
  rw [checkWeakCurveStep, checkWeakCurveStep, h]

theorem map_modifyIdx (f : α → α) (g : α → β) (i : Nat) (l : List α)
    (h : ∀ a, g (f a) = g a) : (modifyIdx f i l).map g = l.map g := by
  induction l generalizing i with
  | nil => cases i <;> rfl
  | cons a as ih =>
    cases i with
    | zero => simp [modifyIdx, h]
    | succ j => simp [modifyIdx, ih]

theorem applyEvent_map_ec_info (arts : List ECKey) (e : WriteEvent) :
    (applyEvent arts e).map (fun a => a.ec_info) = arts.map fun a => a.ec_info := by
  cases e with
  | setResult i tr => exact map_modifyIdx _ _ i arts fun a => rfl
  | attach i nm v => exact map_modifyIdx _ _ i arts fun a => rfl

theorem applyEvents_map_ec_info (es : List WriteEvent) (arts : List ECKey) :
    (applyEvents arts es).map (fun a => a.ec_info) = arts.map fun a => a.ec_info := by
  induction es generalizing arts with
  | nil => rfl
  | cons e rest ih =>
    rw [applyEvents, List.foldl_cons]
    have h1 := ih (applyEvent arts e)
    rw [applyEvents] at h1
    rw [h1, applyEvent_map_ec_info]

/-- Claim C1: for every artifact whose curve identifier resolves to a
known curve, `CheckWeakCurve.Check` writes a test result that is flagged
(weak) if and only if the bit length of the curve's group order `n` is
strictly less than 224; an order of exactly 224 bits (such as `2^223`)
is not flagged, while a 223-bit order is. -/
theorem checkWeakCurve_flags_iff_order_bits_below_224
    (reg : Registry) (info : ECInfo) (curve : Curve)
    (h : factoryGet reg info.curve_type = some curve) :
    ∃ tr, checkWeakCurveStep reg info = some tr ∧
      (tr.result = true ↔ bitLength curve.n < 224) := by
  by_cases hb : bitLength curve.n < 224
  · refine ⟨{ severity := .SEVERITY_MEDIUM, result := true }, ?_, ?_⟩
    · simp [checkWeakCurveStep, h, hb, CreateTestResult]
    · simp [hb]
  · refine ⟨{ severity := .SEVERITY_MEDIUM, result := false }, ?_, ?_⟩
    · simp [checkWeakCurveStep, h, hb, CreateTestResult]
    · simp [hb]

set_option maxRecDepth 8000 in
/-- Witness for C1 at the boundary: a curve of order `2^223` (bit length
exactly 224) is not flagged, a curve of order `2^222` (bit length 223)
is flagged. -/
theorem checkWeakCurve_flags_iff_order_bits_below_224_witness :
    factoryGet [(1, some (sampleCurve (2 ^ 223)))] 1 =
      some (sampleCurve (2 ^ 223)) ∧
    (∃ tr, checkWeakCurveStep [(1, some (sampleCurve (2 ^ 223)))] ⟨1, 0, 0⟩ =
        some tr ∧ (tr.result = true ↔ bitLength (sampleCurve (2 ^ 223)).n < 224)) ∧
    (∃ tr, checkWeakCurveStep [(2, some (sampleCurve (2 ^ 222)))] ⟨2, 0, 0⟩ =
        some tr ∧ (tr.result = true ↔ bitLength (sampleCurve (2 ^ 222)).n < 224)) ∧
    checkWeakCurveStep [(1, some (sampleCurve (2 ^ 223)))] ⟨1, 0, 0⟩ =
      some { severity := .SEVERITY_MEDIUM, result := false } ∧
    checkWeakCurveStep [(2, some (sampleCurve (2 ^ 222)))] ⟨2, 0, 0⟩ =
      some { severity := .SEVERITY_MEDIUM, result := true } :=
  ⟨rfl,
   checkWeakCurve_flags_iff_order_bits_below_224 _ _ _ rfl,
   checkWeakCurve_flags_iff_order_bits_below_224 _ _ _ rfl,
   by decide, by decide⟩

/-- Claim C2: `CheckValidECKey.Check` writes a result for every artifact
in the batch, and the result is flagged exactly when the artifact's
curve identifier is not found in the registry or `IsValidPublicKey`
returns false for its public point; an unknown curve identifier is thus
recorded as flagged rather than raising an exception. -/
theorem checkValidECKey_flags_iff (reg : Registry) (infos : List ECInfo)
    (idx : Nat) (h : idx < infos.length) :
    WriteEvent.setResult idx (checkValidStep reg infos[idx]) ∈
      CheckValidECKey.writes reg infos ∧
    ((checkValidStep reg infos[idx]).result = true ↔
      (factoryGet reg infos[idx].curve_type = none ∨
       ∃ curve, factoryGet reg infos[idx].curve_type = some curve ∧
         curve.IsValidPublicKey (PublicPoint infos[idx]) = false)) := by
  constructor
  · rw [CheckValidECKey.writes]
    apply List.mem_map.mpr
    refine ⟨(idx, infos[idx]), ?_, rfl⟩
    rw [mem_enumFromIdx]
    simp [List.getElem?_eq_getElem h]
  · cases hf : factoryGet reg infos[idx].curve_type with
    | none =>
      have hstep : checkValidStep reg infos[idx] =
          { severity := .SEVERITY_MEDIUM, result := true } := by
        simp [checkValidStep, hf, CreateTestResult]
      rw [hstep]
      exact iff_of_true rfl (Or.inl rfl)
    | some curve =>
      cases hv : curve.IsValidPublicKey (PublicPoint infos[idx]) with
      | false =>
        have hstep : checkValidStep reg infos[idx] =
            { severity := .SEVERITY_MEDIUM, result := true } := by
          simp [checkValidStep, hf, hv, CreateTestResult]
        rw [hstep]
        exact iff_of_true rfl (Or.inr ⟨curve, rfl, hv⟩)
      | true =>
        have hstep : checkValidStep reg infos[idx] =
            { severity := .SEVERITY_MEDIUM, result := false } := by
          simp [checkValidStep, hf, hv, CreateTestResult]
        rw [hstep]
        apply iff_of_false
        · simp
        · rintro (hc | ⟨c, hc, hvf⟩)
          · cases hc
          · injection hc with hc
            subst hc
            rw [hv] at hvf
            cases hvf

/-- Witness for C2: with an empty registry, the single artifact's curve
is unknown, a result is written and it is flagged. -/
theorem checkValidECKey_flags_iff_witness :
    0 < ([(⟨5, 0, 0⟩ : ECInfo)]).length ∧
    (WriteEvent.setResult 0 (checkValidStep [] ([(⟨5, 0, 0⟩ : ECInfo)])[0]) ∈
      CheckValidECKey.writes [] [⟨5, 0, 0⟩] ∧
     ((checkValidStep [] ([(⟨5, 0, 0⟩ : ECInfo)])[0]).result = true ↔
       (factoryGet [] (([(⟨5, 0, 0⟩ : ECInfo)])[0]).curve_type = none ∨
        ∃ curve, factoryGet [] (([(⟨5, 0, 0⟩ : ECInfo)])[0]).curve_type =
            some curve ∧
          curve.IsValidPublicKey (PublicPoint (([(⟨5, 0, 0⟩ : ECInfo)])[0])) =
            false))) :=
  ⟨by decide, checkValidECKey_flags_iff [] [⟨5, 0, 0⟩] 0 (by decide)⟩

/-- Claim C9: the outcome `CheckWeakCurve.Check` assigns to an artifact
depends only on the artifact's curve identifier, never on its point
coordinates: artifacts with equal curve identifiers, at any positions of
any batches, end with identical result-slot contents. -/
theorem checkWeakCurve_depends_only_on_curve_type
    (reg : Registry) (infos1 infos2 : List ECInfo) (idx1 idx2 : Nat)
    (i1 i2 : ECInfo) (h1 : infos1[idx1]? = some i1)
    (h2 : infos2[idx2]? = some i2) (hct : i1.curve_type = i2.curve_type) :
    assignedResult (CheckWeakCurve.writes reg infos1) idx1 =
      assignedResult (CheckWeakCurve.writes reg infos2) idx2 := by
  rw [weakCurve_assignedResult, weakCurve_assignedResult, h1, h2]
  simp only [Option.elim]
  simp only [checkWeakCurveStep]
  rw [hct]

/-- Witness for C9: two artifacts with the same curve identifier and
different coordinates receive the same result-slot content. -/
theorem checkWeakCurve_depends_only_on_curve_type_witness :
    ([(⟨1, 0, 0⟩ : ECInfo)])[0]? = some ⟨1, 0, 0⟩ ∧
    ([(⟨1, 9, 7⟩ : ECInfo)])[0]? = some ⟨1, 9, 7⟩ ∧
    (⟨1, 0, 0⟩ : ECInfo).curve_type = (⟨1, 9, 7⟩ : ECInfo).curve_type ∧
    assignedResult
        (CheckWeakCurve.writes [(1, some (sampleCurve 5))] [⟨1, 0, 0⟩]) 0 =
      assignedResult
        (CheckWeakCurve.writes [(1, some (sampleCurve 5))] [⟨1, 9, 7⟩]) 0 :=
  ⟨rfl, rfl, rfl,
   checkWeakCurve_depends_only_on_curve_type
     [(1, some (sampleCurve 5))] [⟨1, 0, 0⟩] [⟨1, 9, 7⟩] 0 0
     ⟨1, 0, 0⟩ ⟨1, 9, 7⟩ rfl rfl rfl⟩

/-- Claim C8: running any of the three checks twice on the same batch is
idempotent — the second run, on the artifacts mutated by the first,
performs exactly the same write events (hence identical flagged
outcomes and diagnostic values per artifact) and returns the same
boolean. -/
theorem checks_idempotent (reg : Registry) (arts : List ECKey) :
    ((CheckValidECKey.Check reg (CheckValidECKey.Check reg arts).2).1 =
       (CheckValidECKey.Check reg arts).1 ∧
     CheckValidECKey.writes reg
         ((CheckValidECKey.Check reg arts).2.map fun a => a.ec_info) =
       CheckValidECKey.writes reg (arts.map fun a => a.ec_info)) ∧
    ((CheckWeakCurve.Check reg (CheckWeakCurve.Check reg arts).2).1 =
       (CheckWeakCurve.Check reg arts).1 ∧
     CheckWeakCurve.writes reg
         ((CheckWeakCurve.Check reg arts).2.map fun a => a.ec_info) =
       CheckWeakCurve.writes reg (arts.map fun a => a.ec_info)) ∧
    ((CheckWeakECPrivateKey.Check reg
        (CheckWeakECPrivateKey.Check reg arts).2).1 =
       (CheckWeakECPrivateKey.Check reg arts).1 ∧
     CheckWeakECPrivateKey.writes reg
         ((CheckWeakECPrivateKey.Check reg arts).2.map fun a => a.ec_info) =
       CheckWeakECPrivateKey.writes reg (arts.map fun a => a.ec_info)) := by
  refine ⟨⟨?_, ?_⟩, ⟨?_, ?_⟩, ⟨?_, ?_⟩⟩ <;>
    simp only [CheckValidECKey.Check, CheckWeakCurve.Check,
      CheckWeakECPrivateKey.Check, applyEvents_map_ec_info]

theorem exists_flagged_privKeyEventsFor (idx : Nat) (od : Option Nat) :
    (∃ e ∈ privKeyEventsFor idx od, isFlaggedResult e = true) ↔
      od.isSome = true := by
  cases od with
  | some dl => simp [privKeyEventsFor, isFlaggedResult]
  | none => simp [privKeyEventsFor, isFlaggedResult]

theorem exists_flagged_privBatchEvents (c : Curve)
    (keys : List (Nat × ECInfo)) :
    (∃ e ∈ privBatchEvents c keys, isFlaggedResult e = true) ↔
      privBatchAnyWeak c keys = true := by
  rw [privBatchEvents, privBatchAnyWeak, List.any_eq_true]
  constructor
  · rintro ⟨e, he, hf⟩
    obtain ⟨chunk, hchunk, hech⟩ := List.mem_flatten.mp he
    obtain ⟨p, hp, rfl⟩ := List.mem_map.mp hchunk
    refine ⟨p, hp, ?_⟩
    exact (exists_flagged_privKeyEventsFor _ _).mp ⟨e, hech, hf⟩
  · rintro ⟨p, hp, hsome⟩
    obtain ⟨e, he, hf⟩ := (exists_flagged_privKeyEventsFor p.2.1 _).mpr hsome
    exact ⟨e, List.mem_flatten.mpr ⟨_, List.mem_map.mpr ⟨p, hp, rfl⟩, he⟩, hf⟩

theorem exists_flagged_privEntry (infos : List ECInfo)
    (entry : Nat × Option Curve) :
    (∃ e ∈ (match entry.2 with
        | none => ([] : List WriteEvent)
        | some curve =>
          let keys := batchKeys infos entry.1
          if keys.isEmpty then [] else privBatchEvents curve keys),
      isFlaggedResult e = true) ↔
    (match entry.2 with
      | none => false
      | some curve =>
        let keys := batchKeys infos entry.1
        if keys.isEmpty then false else privBatchAnyWeak curve keys) = true := by
  obtain ⟨cid, oc⟩ := entry
  cases oc with
  | none => simp
  | some curve =>
    simp only
    by_cases hke : (batchKeys infos cid).isEmpty
    · simp [hke]
    · simp only [hke, if_neg, Bool.false_eq_true, not_false_eq_true]
      exact exists_flagged_privBatchEvents curve (batchKeys infos cid)

theorem exists_flagged_weakCurve_chunk (reg : Registry) (p : Nat × ECInfo) :
    (∃ e ∈ (match checkWeakCurveStep reg p.2 with
        | none => ([] : List WriteEvent)
        | some tr => [WriteEvent.setResult p.1 tr]), isFlaggedResult e = true) ↔
    (match checkWeakCurveStep reg p.2 with
      | none => false
      | some tr => tr.result) = true := by
  cases hstep : checkWeakCurveStep reg p.2 with
  | none => simp
  | some tr => simp [isFlaggedResult]

/-- Claim C4: each of the three checks returns `True` if and only if at
least one artifact in the batch was flagged during that invocation (its
trace contains a flagged result write); with no flagged artifact — in
particular for an empty batch — it returns `False`. -/
theorem checks_return_any_flagged (reg : Registry) (infos : List ECInfo) :
    (CheckValidECKey.anyWeak reg infos = true ↔
      ∃ e ∈ CheckValidECKey.writes reg infos, isFlaggedResult e = true) ∧
    (CheckWeakCurve.anyWeak reg infos = true ↔
      ∃ e ∈ CheckWeakCurve.writes reg infos, isFlaggedResult e = true) ∧
    (CheckWeakECPrivateKey.anyWeak reg infos = true ↔
      ∃ e ∈ CheckWeakECPrivateKey.writes reg infos, isFlaggedResult e = true) := by
  refine ⟨?_, ?_, ?_⟩
  · have hany : CheckValidECKey.anyWeak reg infos =
        (enumFromIdx 0 infos).any fun p => (checkValidStep reg p.2).result := by
      rw [CheckValidECKey.anyWeak]
      conv_lhs => rw [← enumFromIdx_map_snd 0 infos]
      rw [any_map_general]
    rw [hany, List.any_eq_true, CheckValidECKey.writes]
    constructor
    · rintro ⟨p, hp, hres⟩
      exact ⟨WriteEvent.setResult p.1 (checkValidStep reg p.2),
        List.mem_map.mpr ⟨p, hp, rfl⟩, hres⟩
    · rintro ⟨e, he, hf⟩
      obtain ⟨p, hp, rfl⟩ := List.mem_map.mp he
      exact ⟨p, hp, hf⟩
  · have hany : CheckWeakCurve.anyWeak reg infos =
        (enumFromIdx 0 infos).any fun p =>
          (match checkWeakCurveStep reg p.2 with
           | none => false
           | some tr => tr.result) := by
      rw [CheckWeakCurve.anyWeak]
      conv_lhs => rw [← enumFromIdx_map_snd 0 infos]
      rw [any_map_general]
    rw [hany, List.any_eq_true, CheckWeakCurve.writes]
    constructor
    · rintro ⟨p, hp, hres⟩
      obtain ⟨e, he, hf⟩ := (exists_flagged_weakCurve_chunk reg p).mpr hres
      exact ⟨e, List.mem_flatten.mpr ⟨_, List.mem_map.mpr ⟨p, hp, rfl⟩, he⟩, hf⟩
    · rintro ⟨e, he, hf⟩
      obtain ⟨chunk, hchunk, hech⟩ := List.mem_flatten.mp he
      obtain ⟨p, hp, rfl⟩ := List.mem_map.mp hchunk
      exact ⟨p, hp, (exists_flagged_weakCurve_chunk reg p).mp ⟨e, hech, hf⟩⟩
  · rw [CheckWeakECPrivateKey.anyWeak, CheckWeakECPrivateKey.writes,
      List.any_eq_true]
    constructor
    · rintro ⟨entry, hentry, hfun⟩
      obtain ⟨e, he, hf⟩ := (exists_flagged_privEntry infos entry).mpr hfun
      exact ⟨e, List.mem_flatten.mpr ⟨_, List.mem_map.mpr ⟨entry, hentry, rfl⟩, he⟩, hf⟩
    · rintro ⟨e, he, hf⟩
      obtain ⟨chunk, hchunk, hech⟩ := List.mem_flatten.mp he
      obtain ⟨entry, hentry, rfl⟩ := List.mem_map.mp hchunk
      exact ⟨entry, hentry, (exists_flagged_privEntry infos entry).mp ⟨e, hech, hf⟩⟩

theorem getElem?_some_lt {l : List α} {i : Nat} {a : α} (h : l[i]? = some a) :
    i < l.length := by
  by_contra hc
  rw [List.getElem?_eq_none (by omega)] at h
  cases h

theorem flatten_map_enum_split (g : Nat × α → List β) (l : List α)
    (k i : Nat) (h : i < l.length) :
    ∃ pre post, ((enumFromIdx k l).map g).flatten =
      pre ++ g (k + i, l.get ⟨i, h⟩) ++ post := by
  induction l generalizing k i with
  | nil => cases h
  | cons a as ih =>
    cases i with
    | zero =>
      refine ⟨[], ((enumFromIdx (k + 1) as).map g).flatten, ?_⟩
      simp [enumFromIdx]
    | succ j =>
      have hj : j < as.length := by
        simp at h
        omega
      obtain ⟨pre, post, hsplit⟩ := ih (k + 1) j hj
      refine ⟨g (k, a) ++ pre, post, ?_⟩
      rw [enumFromIdx, List.map_cons, List.flatten_cons, hsplit]
      have harr : k + 1 + j = k + (j + 1) := by omega
      rw [harr]
      simp [List.append_assoc]

theorem target_privKeyEventsFor {e : WriteEvent} {idx : Nat} {od : Option Nat}
    (h : e ∈ privKeyEventsFor idx od) : e.target = idx := by
  cases od with
  | none =>
    simp only [privKeyEventsFor] at h
    rcases List.mem_singleton.mp h with rfl
    rfl
  | some dl =>
    simp only [privKeyEventsFor] at h
    rcases List.mem_cons.mp h with rfl | h2
    · rfl
    · rcases List.mem_singleton.mp h2 with rfl
      rfl

theorem hexDigitChar_mem {d : Nat} (h : d < 16) :
    hexDigitChar d ∈ "0123456789abcdef".data := by
  interval_cases d <;> decide

theorem hexDigitsAux_chars (fuel n : Nat) {c : Char}
    (h : c ∈ hexDigitsAux fuel n) : c ∈ "0123456789abcdef".data := by
  induction fuel generalizing n with
  | zero => cases h
  | succ f ih =>
    rw [hexDigitsAux] at h
    by_cases hn : n < 16
    · rw [if_pos hn] at h
      rcases List.mem_singleton.mp h with rfl
      exact hexDigitChar_mem hn
    · rw [if_neg hn] at h
      rcases List.mem_append.mp h with h2 | h2
      · exact ih (n / 16) h2
      · rcases List.mem_singleton.mp h2 with rfl
        exact hexDigitChar_mem (Nat.mod_lt _ (by omega))

theorem toHex_chars_lowercase (n : Nat) {c : Char} (h : c ∈ (toHex n).data) :
    c ∈ "0123456789abcdef".data :=
  hexDigitsAux_chars (n + 1) n h

theorem privBatchEvents_targets (infos : List ECInfo) (cid : Nat)
    (curve : Curve) :
    ∀ e ∈ privBatchEvents curve (batchKeys infos cid),
      ∃ info, infos[e.target]? = some info ∧ info.curve_type = cid := by
  intro e he
  simp only [privBatchEvents] at he
  obtain ⟨chunk, hchunk, hech⟩ := List.mem_flatten.mp he
  obtain ⟨p, hp, rfl⟩ := List.mem_map.mp hchunk
  have htgt := target_privKeyEventsFor hech
  have hsnd : p.2 ∈ batchKeys infos cid := by
    rw [← enumFromIdx_map_snd 0 (batchKeys infos cid)]
    exact List.mem_map.mpr ⟨p, hp, rfl⟩
  obtain ⟨hget, hct⟩ := mem_batchKeys.mp hsnd
  exact ⟨p.2.2, htgt ▸ hget, hct⟩

/-- Claim C3: `CheckWeakECPrivateKey.Check` partitions artifacts into
per-curve batches by exact equality of curve identifier; the discrete
log at position `i` of a curve's batch is attributed to the key at the
same position `i` of that batch; and every write of a curve's batch
targets an artifact whose curve identifier equals that curve's — a
result computed for one curve is never attributed to a key on another
curve. -/
theorem privKey_batch_partition_attribution
    (infos : List ECInfo) (cid : Nat) (curve : Curve) :
    (∀ p : Nat × ECInfo, p ∈ batchKeys infos cid ↔
       infos[p.1]? = some p.2 ∧ p.2.curve_type = cid) ∧
    (∀ e ∈ privBatchEvents curve (batchKeys infos cid),
       ∃ info, infos[e.target]? = some info ∧ info.curve_type = cid) ∧
    (∀ i, ∀ h : i < (batchKeys infos cid).length,
       ∃ pre post, privBatchEvents curve (batchKeys infos cid) =
         pre ++ privKeyEventsFor ((batchKeys infos cid).get ⟨i, h⟩).1
           ((batchDLs curve (batchKeys infos cid)).getD i none) ++ post) := by
  refine ⟨fun p => mem_batchKeys, privBatchEvents_targets infos cid curve, ?_⟩
  · intro i h
    obtain ⟨pre, post, hsplit⟩ :=
      flatten_map_enum_split
        (fun p => privKeyEventsFor p.2.1
          ((batchDLs curve (batchKeys infos cid)).getD p.1 none))
        (batchKeys infos cid) 0 i h
    refine ⟨pre, post, ?_⟩
    simp only [privBatchEvents]
    rw [hsplit]
    simp

/-- Witness for C3 on a concrete two-curve batch. -/
theorem privKey_batch_partition_attribution_witness :
    ((0, (⟨1, 3, 4⟩ : ECInfo)) ∈
        batchKeys [⟨1, 3, 4⟩, ⟨2, 5, 6⟩] 1 ↔
      ([(⟨1, 3, 4⟩ : ECInfo), ⟨2, 5, 6⟩])[(0 : Nat)]? = some ⟨1, 3, 4⟩ ∧
        (⟨1, 3, 4⟩ : ECInfo).curve_type = 1) ∧
    (∃ info, ([(⟨1, 3, 4⟩ : ECInfo), ⟨2, 5, 6⟩])[(WriteEvent.attach 0
        INFO_NAME_DISCRETE_LOG (toHex 26)).target]? = some info ∧
      info.curve_type = 1) ∧
    (∃ pre post,
      privBatchEvents (sampleCurveDL 101 26)
          (batchKeys [⟨1, 3, 4⟩, ⟨2, 5, 6⟩] 1) =
        pre ++ privKeyEventsFor
          ((batchKeys [⟨1, 3, 4⟩, ⟨2, 5, 6⟩] 1).get ⟨0, by decide⟩).1
          ((batchDLs (sampleCurveDL 101 26)
            (batchKeys [⟨1, 3, 4⟩, ⟨2, 5, 6⟩] 1)).getD 0 none) ++ post) := by
  obtain ⟨h1, h2, h3⟩ :=
    privKey_batch_partition_attribution [⟨1, 3, 4⟩, ⟨2, 5, 6⟩] 1
      (sampleCurveDL 101 26)
  refine ⟨h1 (0, ⟨1, 3, 4⟩), ?_, h3 0 (by decide)⟩
  apply h2
  decide

/-- Claim C5: in a `CheckWeakECPrivateKey` curve batch, a key whose
batched search returns a value gets that value attached, rendered as a
lowercase hexadecimal string, under the fixed discrete-log diagnostic
name, and is flagged; a key whose search returns no value gets an
unflagged result and no diagnostic — the not-found outcome is an
ordinary result, not an error. -/
theorem privKey_reports (infos : List ECInfo) (cid : Nat) (curve : Curve)
    (i idx : Nat) (info : ECInfo)
    (hget : (batchKeys infos cid)[i]? = some (idx, info)) :
    (∀ d, (batchDLs curve (batchKeys infos cid)).getD i none = some d →
       WriteEvent.attach idx INFO_NAME_DISCRETE_LOG (toHex d) ∈
           privBatchEvents curve (batchKeys infos cid) ∧
         WriteEvent.setResult idx
             { severity := .SEVERITY_CRITICAL, result := true } ∈
           privBatchEvents curve (batchKeys infos cid) ∧
         ∀ c ∈ (toHex d).data, c ∈ "0123456789abcdef".data) ∧
    ((batchDLs curve (batchKeys infos cid)).getD i none = none →
       WriteEvent.setResult idx
           { severity := .SEVERITY_CRITICAL, result := false } ∈
         privBatchEvents curve (batchKeys infos cid) ∧
       ∀ nm v, WriteEvent.attach idx nm v ∉
         privBatchEvents curve (batchKeys infos cid)) := by
  have hpmem : ((i, (idx, info)) : Nat × (Nat × ECInfo)) ∈
      enumFromIdx 0 (batchKeys infos cid) := by
    rw [mem_enumFromIdx]
    exact ⟨Nat.zero_le _, by simpa using hget⟩
  have hchunkmem : privKeyEventsFor idx
      ((batchDLs curve (batchKeys infos cid)).getD i none) ∈
      (enumFromIdx 0 (batchKeys infos cid)).map
        (fun p => privKeyEventsFor p.2.1
          ((batchDLs curve (batchKeys infos cid)).getD p.1 none)) :=
    List.mem_map.mpr ⟨(i, (idx, info)), hpmem, rfl⟩
  constructor
  · intro d hd
    rw [hd] at hchunkmem
    refine ⟨?_, ?_, fun c hc => toHex_chars_lowercase d hc⟩
    · have hin : WriteEvent.attach idx INFO_NAME_DISCRETE_LOG (toHex d) ∈
          privKeyEventsFor idx (some d) := by
        simp [privKeyEventsFor]
      simp only [privBatchEvents]
      exact List.mem_flatten.mpr ⟨_, hchunkmem, hin⟩
    · have hin : WriteEvent.setResult idx
          { severity := .SEVERITY_CRITICAL, result := true } ∈
          privKeyEventsFor idx (some d) := by
        simp [privKeyEventsFor]
      simp only [privBatchEvents]
      exact List.mem_flatten.mpr ⟨_, hchunkmem, hin⟩
  · intro hnone
    rw [hnone] at hchunkmem
    constructor
    · have hin : WriteEvent.setResult idx
          { severity := .SEVERITY_CRITICAL, result := false } ∈
          privKeyEventsFor idx none := by
        simp [privKeyEventsFor]
      simp only [privBatchEvents]
      exact List.mem_flatten.mpr ⟨_, hchunkmem, hin⟩
    · intro nm v hatt
      simp only [privBatchEvents] at hatt
      obtain ⟨chunk, hchunk, hech⟩ := List.mem_flatten.mp hatt
      obtain ⟨p, hp, rfl⟩ := List.mem_map.mp hchunk
      cases hod : (batchDLs curve (batchKeys infos cid)).getD p.1 none with
      | none =>
        rw [hod] at hech
        simp [privKeyEventsFor] at hech
      | some d2 =>
        rw [hod] at hech
        simp only [privKeyEventsFor] at hech
        rcases List.mem_cons.mp hech with heq | h2
        · injection heq with h1 hname hval
          have hkeys : (batchKeys infos cid)[p.1]? = some p.2 := by
            have hm := mem_enumFromIdx.mp hp
            simpa using hm.2
          have hm1 : ((batchKeys infos cid).map Prod.fst)[i]? = some idx := by
            rw [List.getElem?_map, hget]
            rfl
          have hm2 : ((batchKeys infos cid).map Prod.fst)[p.1]? = some idx := by
            rw [List.getElem?_map, hkeys]
            show some p.2.1 = some idx
            rw [h1]
          have hlen : i < ((batchKeys infos cid).map Prod.fst).length :=
            getElem?_some_lt hm1
          have hij : i = p.1 :=
            List.getElem?_inj hlen (nodup_batchKeys_fst infos cid)
              (by rw [hm1, hm2])
          rw [← hij] at hod
          rw [hnone] at hod
          cases hod
        · rcases List.mem_singleton.mp h2 with heq
          simp at heq

/-- Witness for C5: a singleton batch where the search finds the value
26 (attached as "1a" and flagged), and one where it finds nothing
(unflagged, no diagnostic). -/
theorem privKey_reports_witness :
    (batchKeys [(⟨1, 3, 4⟩ : ECInfo)] 1)[(0 : Nat)]? = some (0, ⟨1, 3, 4⟩) ∧
    (WriteEvent.attach 0 INFO_NAME_DISCRETE_LOG (toHex 26) ∈
        privBatchEvents (sampleCurveDL 101 26) (batchKeys [⟨1, 3, 4⟩] 1) ∧
      WriteEvent.setResult 0 { severity := .SEVERITY_CRITICAL, result := true } ∈
        privBatchEvents (sampleCurveDL 101 26) (batchKeys [⟨1, 3, 4⟩] 1) ∧
      ∀ c ∈ (toHex 26).data, c ∈ "0123456789abcdef".data) ∧
    (WriteEvent.setResult 0 { severity := .SEVERITY_CRITICAL, result := false } ∈
        privBatchEvents (sampleCurve 101) (batchKeys [⟨1, 3, 4⟩] 1) ∧
      ∀ nm v, WriteEvent.attach 0 nm v ∉
        privBatchEvents (sampleCurve 101) (batchKeys [⟨1, 3, 4⟩] 1)) :=
  ⟨by decide,
   (privKey_reports [⟨1, 3, 4⟩] 1 (sampleCurveDL 101 26) 0 0 ⟨1, 3, 4⟩
     (by decide)).1 26 (by decide),
   (privKey_reports [⟨1, 3, 4⟩] 1 (sampleCurve 101) 0 0 ⟨1, 3, 4⟩
     (by decide)).2 (by decide)⟩

theorem mem_privKey_writes {reg : Registry} {infos : List ECInfo}
    {e : WriteEvent} (h : e ∈ CheckWeakECPrivateKey.writes reg infos) :
    ∃ cid curve, (cid, some curve) ∈ reg ∧
      e ∈ privBatchEvents curve (batchKeys infos cid) := by
  rw [CheckWeakECPrivateKey.writes] at h
  obtain ⟨chunk, hchunk, hech⟩ := List.mem_flatten.mp h
  obtain ⟨entry, hentry, rfl⟩ := List.mem_map.mp hchunk
  obtain ⟨cid, oc⟩ := entry
  cases oc with
  | none => simp at hech
  | some curve =>
    simp only at hech
    by_cases hke : (batchKeys infos cid).isEmpty
    · rw [if_pos hke] at hech
      cases hech
    · rw [if_neg hke] at hech
      exact ⟨cid, curve, hentry, hech⟩

theorem any_congr_mem {l : List α} {p q : α → Bool}
    (h : ∀ a ∈ l, p a = q a) : l.any p = l.any q := by
  induction l with
  | nil => rfl
  | cons a as ih =>
    rw [List.any_cons, List.any_cons, h a (List.mem_cons_self _ _),
      ih fun b hb => h b (List.mem_cons_of_mem _ hb)]

theorem privEntryAnyWeak_eq_of_snd {infos1 infos2 : List ECInfo} {cid : Nat}
    (curve : Curve)
    (hsnd : (batchKeys infos1 cid).map Prod.snd =
      (batchKeys infos2 cid).map Prod.snd) :
    (if (batchKeys infos1 cid).isEmpty then false
     else privBatchAnyWeak curve (batchKeys infos1 cid)) =
    (if (batchKeys infos2 cid).isEmpty then false
     else privBatchAnyWeak curve (batchKeys infos2 cid)) := by
  have hlen : (batchKeys infos1 cid).length = (batchKeys infos2 cid).length := by
    have h2 := congrArg List.length hsnd
    simpa using h2
  have hie : (batchKeys infos1 cid).isEmpty = (batchKeys infos2 cid).isEmpty := by
    rw [← isEmpty_eq_isEmpty_map Prod.snd, hsnd, isEmpty_eq_isEmpty_map]
  rw [privBatchAnyWeak_eq_snd, privBatchAnyWeak_eq_snd, hsnd, hie, hlen]

/-- Claim C6: an artifact whose curve identifier is unknown to the
registry is silently skipped by `CheckWeakCurve.Check` and
`CheckWeakECPrivateKey.Check`: neither check writes a result or attaches
a diagnostic for it (no event targets its position), and removing it
from the batch leaves both checks' returned booleans unchanged. -/
theorem unknown_curve_silently_skipped
    (reg : Registry) (l1 l2 : List ECInfo) (info : ECInfo)
    (hnd : (reg.map Prod.fst).Nodup)
    (hunknown : factoryGet reg info.curve_type = none) :
    (∀ e ∈ CheckWeakCurve.writes reg (l1 ++ info :: l2),
       e.target ≠ l1.length) ∧
    (∀ e ∈ CheckWeakECPrivateKey.writes reg (l1 ++ info :: l2),
       e.target ≠ l1.length) ∧
    CheckWeakCurve.anyWeak reg (l1 ++ info :: l2) =
      CheckWeakCurve.anyWeak reg (l1 ++ l2) ∧
    CheckWeakECPrivateKey.anyWeak reg (l1 ++ info :: l2) =
      CheckWeakECPrivateKey.anyWeak reg (l1 ++ l2) := by
  have hstep : checkWeakCurveStep reg info = none := by
    simp [checkWeakCurveStep, hunknown]
  have hmid : (l1 ++ info :: l2)[l1.length]? = some info := by
    rw [List.getElem?_append_right (Nat.le_refl _)]
    simp
  refine ⟨?_, ?_, ?_, ?_⟩
  · intro e he htgt
    rw [CheckWeakCurve.writes] at he
    obtain ⟨chunk, hchunk, hech⟩ := List.mem_flatten.mp he
    obtain ⟨p, hp, rfl⟩ := List.mem_map.mp hchunk
    cases hsp : checkWeakCurveStep reg p.2 with
    | none =>
      rw [hsp] at hech
      cases hech
    | some tr =>
      rw [hsp] at hech
      rcases List.mem_singleton.mp hech with rfl
      have hpget : (l1 ++ info :: l2)[p.1]? = some p.2 := by
        have hm := mem_enumFromIdx.mp hp
        simpa using hm.2
      have htg : WriteEvent.target (WriteEvent.setResult p.1 tr) = p.1 := rfl
      rw [htg] at htgt
      rw [htgt, hmid] at hpget
      injection hpget with hpe
      rw [← hpe] at hsp
      rw [hstep] at hsp
      cases hsp
  · intro e he htgt
    obtain ⟨cid, curve, hentry, hbe⟩ := mem_privKey_writes he
    obtain ⟨info2, hget2, hct2⟩ :=
      privBatchEvents_targets (l1 ++ info :: l2) cid curve e hbe
    rw [htgt, hmid] at hget2
    injection hget2 with hpe
    have hfg : factoryGet reg cid = some curve :=
      factoryGet_of_mem_nodup hnd hentry
    rw [hpe, hct2] at hunknown
    rw [hunknown] at hfg
    cases hfg
  · rw [CheckWeakCurve.anyWeak, CheckWeakCurve.anyWeak, List.any_append,
      List.any_append, List.any_cons, hstep]
    simp
  · rw [CheckWeakECPrivateKey.anyWeak, CheckWeakECPrivateKey.anyWeak]
    apply any_congr_mem
    rintro ⟨cid, oc⟩ hentry
    cases oc with
    | none => rfl
    | some curve =>
      simp only
      have hne : info.curve_type ≠ cid := by
        intro hc
        have hfg : factoryGet reg cid = some curve :=
          factoryGet_of_mem_nodup hnd hentry
        rw [← hc] at hfg
        rw [hunknown] at hfg
        cases hfg
      have hsnd : (batchKeys (l1 ++ info :: l2) cid).map Prod.snd =
          (batchKeys (l1 ++ l2) cid).map Prod.snd := by
        rw [batchKeys_map_snd, batchKeys_map_snd, List.filter_append,
          List.filter_append, List.filter_cons]
        have hb : (info.curve_type == cid) = false := by
          rw [beq_eq_false_iff_ne]
          exact hne
        simp [hb]
      exact privEntryAnyWeak_eq_of_snd curve hsnd

/-- Witness for C6: one artifact on an unregistered curve among two
artifacts; the unknown-curve artifact at index 1 receives no writes and
does not change either check's boolean. -/
theorem unknown_curve_silently_skipped_witness :
    ([((1 : Nat), some (sampleCurve 5))].map Prod.fst).Nodup ∧
    factoryGet [(1, some (sampleCurve 5))] (⟨9, 0, 0⟩ : ECInfo).curve_type =
      none ∧
    ((∀ e ∈ CheckWeakCurve.writes [(1, some (sampleCurve 5))]
        ([⟨1, 2, 3⟩] ++ ⟨9, 0, 0⟩ :: []), e.target ≠ [(⟨1, 2, 3⟩ : ECInfo)].length) ∧
     (∀ e ∈ CheckWeakECPrivateKey.writes [(1, some (sampleCurve 5))]
        ([⟨1, 2, 3⟩] ++ ⟨9, 0, 0⟩ :: []), e.target ≠ [(⟨1, 2, 3⟩ : ECInfo)].length) ∧
     CheckWeakCurve.anyWeak [(1, some (sampleCurve 5))]
         ([⟨1, 2, 3⟩] ++ ⟨9, 0, 0⟩ :: []) =
       CheckWeakCurve.anyWeak [(1, some (sampleCurve 5))] ([⟨1, 2, 3⟩] ++ []) ∧
     CheckWeakECPrivateKey.anyWeak [(1, some (sampleCurve 5))]
         ([⟨1, 2, 3⟩] ++ ⟨9, 0, 0⟩ :: []) =
       CheckWeakECPrivateKey.anyWeak [(1, some (sampleCurve 5))]
         ([⟨1, 2, 3⟩] ++ [])) :=
  ⟨by decide, rfl,
   unknown_curve_silently_skipped [(1, some (sampleCurve 5))]
     [⟨1, 2, 3⟩] [] ⟨9, 0, 0⟩ (by decide) rfl⟩

theorem lookup_eq_none_of_not_mem {reg : Registry} {k : Nat}
    (h : k ∉ reg.map Prod.fst) : reg.lookup k = none := by
  induction reg with
  | nil => rfl
  | cons e rest ih =>
    obtain ⟨e1, e2⟩ := e
    rw [List.map_cons, List.mem_cons] at h
    push_neg at h
    have hb : (k == e1) = false := by
      rw [beq_eq_false_iff_ne]
      exact h.1
    simp only [List.lookup, hb]
    exact ih h.2

theorem factoryGet_midnone (l1 l2 : Registry) (cid : Nat)
    (hn : cid ∉ (l1 ++ l2).map Prod.fst) (x : Nat) :
    factoryGet (l1 ++ (cid, none) :: l2) x = factoryGet (l1 ++ l2) x := by
  induction l1 with
  | nil =>
    rw [List.nil_append, List.nil_append]
    by_cases hx : x = cid
    · subst hx
      have h2 : l2.lookup x = none :=
        lookup_eq_none_of_not_mem (by simpa using hn)
      simp [factoryGet, List.lookup, h2]
    · have hb : (x == cid) = false := by
        rw [beq_eq_false_iff_ne]
        exact hx
      simp only [factoryGet, List.lookup, hb]
  | cons e rest ih =>
    obtain ⟨e1, e2⟩ := e
    rw [List.cons_append, List.cons_append]
    cases hbe : x == e1 with
    | true => simp [factoryGet, List.lookup, hbe]
    | false =>
      simp only [factoryGet, List.lookup, hbe]
      have hn2 : cid ∉ (rest ++ l2).map Prod.fst := by
        intro hm
        apply hn
        simp only [List.cons_append, List.map_cons, List.mem_cons]
        right
        exact hm
      exact ih hn2

theorem CheckValid_writes_congr {r1 r2 : Registry}
    (h : ∀ x, factoryGet r1 x = factoryGet r2 x) (infos : List ECInfo) :
    CheckValidECKey.writes r1 infos = CheckValidECKey.writes r2 infos := by
  rw [CheckValidECKey.writes, CheckValidECKey.writes]
  exact List.map_congr_left fun p _ => by rw [checkValidStep_congr h]

theorem CheckValid_anyWeak_congr {r1 r2 : Registry}
    (h : ∀ x, factoryGet r1 x = factoryGet r2 x) (infos : List ECInfo) :
    CheckValidECKey.anyWeak r1 infos = CheckValidECKey.anyWeak r2 infos := by
  rw [CheckValidECKey.anyWeak, CheckValidECKey.anyWeak]
  exact any_congr_mem fun info _ => by rw [checkValidStep_congr h]

theorem CheckWeakCurve_writes_congr {r1 r2 : Registry}
    (h : ∀ x, factoryGet r1 x = factoryGet r2 x) (infos : List ECInfo) :
    CheckWeakCurve.writes r1 infos = CheckWeakCurve.writes r2 infos := by
  rw [CheckWeakCurve.writes, CheckWeakCurve.writes]
  congr 1
  exact List.map_congr_left fun p _ => by rw [checkWeakCurveStep_congr h]

theorem CheckWeakCurve_anyWeak_congr {r1 r2 : Registry}
    (h : ∀ x, factoryGet r1 x = factoryGet r2 x) (infos : List ECInfo) :
    CheckWeakCurve.anyWeak r1 infos = CheckWeakCurve.anyWeak r2 infos := by
  rw [CheckWeakCurve.anyWeak, CheckWeakCurve.anyWeak]
  exact any_congr_mem fun info _ => by rw [checkWeakCurveStep_congr h]

/-- Claim C10: a registry entry whose identifier is present but whose
stored curve is `None` behaves exactly like an absent identifier: the
lookup yields `None`, `CheckValidECKey` flags any artifact with that
identifier, and all three checks produce the same writes and the same
returned booleans as with the entry removed. -/
theorem registry_none_entry_like_absent
    (l1 l2 : Registry) (cid : Nat) (infos : List ECInfo)
    (hn : cid ∉ (l1 ++ l2).map Prod.fst) :
    factoryGet (l1 ++ (cid, none) :: l2) cid = none ∧
    (∀ info : ECInfo, info.curve_type = cid →
       (checkValidStep (l1 ++ (cid, none) :: l2) info).result = true) ∧
    CheckValidECKey.writes (l1 ++ (cid, none) :: l2) infos =
      CheckValidECKey.writes (l1 ++ l2) infos ∧
    CheckValidECKey.anyWeak (l1 ++ (cid, none) :: l2) infos =
      CheckValidECKey.anyWeak (l1 ++ l2) infos ∧
    CheckWeakCurve.writes (l1 ++ (cid, none) :: l2) infos =
      CheckWeakCurve.writes (l1 ++ l2) infos ∧
    CheckWeakCurve.anyWeak (l1 ++ (cid, none) :: l2) infos =
      CheckWeakCurve.anyWeak (l1 ++ l2) infos ∧
    CheckWeakECPrivateKey.writes (l1 ++ (cid, none) :: l2) infos =
      CheckWeakECPrivateKey.writes (l1 ++ l2) infos ∧
    CheckWeakECPrivateKey.anyWeak (l1 ++ (cid, none) :: l2) infos =
      CheckWeakECPrivateKey.anyWeak (l1 ++ l2) infos := by
  have hfg := factoryGet_midnone l1 l2 cid hn
  have h1 : factoryGet (l1 ++ (cid, none) :: l2) cid = none := by
    rw [hfg cid, factoryGet, lookup_eq_none_of_not_mem hn]
    rfl
  refine ⟨h1, ?_, CheckValid_writes_congr hfg infos,
    CheckValid_anyWeak_congr hfg infos, CheckWeakCurve_writes_congr hfg infos,
    CheckWeakCurve_anyWeak_congr hfg infos, ?_, ?_⟩
  · intro info hct
    have : factoryGet (l1 ++ (cid, none) :: l2) info.curve_type = none := by
      rw [hct]
      exact h1
    simp [checkValidStep, this, CreateTestResult]
  · rw [CheckWeakECPrivateKey.writes, CheckWeakECPrivateKey.writes,
      List.map_append, List.map_append, List.map_cons,
      List.flatten_append, List.flatten_append, List.flatten_cons]
    rfl
  · rw [CheckWeakECPrivateKey.anyWeak, CheckWeakECPrivateKey.anyWeak,
      List.any_append, List.any_append, List.any_cons]
    rfl

/-- Witness for C10: a two-entry registry where identifier 2 is stored
as `None`. -/
theorem registry_none_entry_like_absent_witness :
    (2 : Nat) ∉ ([((1 : Nat), some (sampleCurve 5))] ++
      ([] : Registry)).map Prod.fst ∧
    factoryGet ([(1, some (sampleCurve 5))] ++ (2, none) :: []) 2 = none ∧
    ((⟨2, 0, 0⟩ : ECInfo).curve_type = 2 →
      (checkValidStep ([(1, some (sampleCurve 5))] ++ (2, none) :: [])
        ⟨2, 0, 0⟩).result = true) ∧
    CheckWeakECPrivateKey.anyWeak ([(1, some (sampleCurve 5))] ++ (2, none) :: [])
        [⟨2, 0, 0⟩, ⟨1, 0, 0⟩] =
      CheckWeakECPrivateKey.anyWeak ([(1, some (sampleCurve 5))] ++ [])
        [⟨2, 0, 0⟩, ⟨1, 0, 0⟩] := by
  have h := registry_none_entry_like_absent [(1, some (sampleCurve 5))] [] 2
    [⟨2, 0, 0⟩, ⟨1, 0, 0⟩] (by decide)
  exact ⟨by decide, h.1, fun hc => h.2.1 ⟨2, 0, 0⟩ hc, h.2.2.2.2.2.2.2⟩

theorem sum_map_ite_eq_countP (l : List α) (pr : α → Bool) :
    (l.map fun a => if pr a then 1 else 0).sum = l.countP pr := by
  induction l with
  | nil => rfl
  | cons a as ih =>
    cases hpa : pr a <;> simp [List.countP_cons, hpa, ih, Nat.add_comm]

theorem checkWeakCurveStep_isSome (reg : Registry) (info : ECInfo) :
    (checkWeakCurveStep reg info).isSome =
      (factoryGet reg info.curve_type).isSome := by
  cases hf : factoryGet reg info.curve_type with
  | none => simp [checkWeakCurveStep, hf]
  | some c =>
    simp only [checkWeakCurveStep, hf]
    split <;> rfl

theorem countResultWrites_privKeyEventsFor (i idx : Nat) (od : Option Nat) :
    countResultWrites (privKeyEventsFor i od) idx =
      if i == idx then 1 else 0 := by
  cases od with
  | none =>
    cases hb : (i == idx) <;>
      simp [countResultWrites, privKeyEventsFor, List.countP_cons, hb]
  | some d =>
    cases hb : (i == idx) <;>
      simp [countResultWrites, privKeyEventsFor, List.countP_cons, hb]

theorem countResultWrites_privBatchEvents (curve : Curve)
    (keys : List (Nat × ECInfo)) (idx : Nat) :
    countResultWrites (privBatchEvents curve keys) idx =
      keys.countP fun q => q.1 == idx := by
  rw [countResultWrites]
  simp only [privBatchEvents]
  rw [countP_flatten_map]
  have hpt : ∀ p ∈ enumFromIdx 0 keys,
      ((privKeyEventsFor p.2.1 ((batchDLs curve keys).getD p.1 none)).countP
        fun e => match e with
        | WriteEvent.setResult i _ => i == idx
        | WriteEvent.attach _ _ _ => false) =
      (if p.2.1 == idx then 1 else 0) := by
    intro p hp
    have := countResultWrites_privKeyEventsFor p.2.1 idx
      ((batchDLs curve keys).getD p.1 none)
    rw [countResultWrites] at this
    exact this
  rw [List.map_congr_left hpt]
  have hsnd : (enumFromIdx 0 keys).map (fun p => if p.2.1 == idx then 1 else 0) =
      keys.map fun q => if q.1 == idx then 1 else 0 := by
    have hmm : (enumFromIdx 0 keys).map (fun p => if p.2.1 == idx then 1 else 0) =
        ((enumFromIdx 0 keys).map Prod.snd).map
          fun q => if q.1 == idx then 1 else 0 := by
      rw [List.map_map]
      rfl
    rw [hmm, enumFromIdx_map_snd]
  rw [hsnd]
  exact sum_map_ite_eq_countP keys _

theorem countP_fst_batchKeys (infos : List ECInfo) (cid idx : Nat)
    (h : idx < infos.length) :
    ((batchKeys infos cid).countP fun q => q.1 == idx) =
      if infos[idx].curve_type = cid then 1 else 0 := by
  rw [batchKeys, List.countP_filter]
  rw [countP_enumFromIdx_eq infos 0 idx _ (fun p hp => by
    simp only [Bool.and_eq_true, beq_iff_eq] at hp
    exact hp.1)]
  simp [List.getElem?_eq_getElem h]

/-- Counterexample to claim C7 as stated: with an empty registry the
single artifact's curve is unknown, and `CheckWeakCurve.Check` writes
its result slot zero times during the invocation, not exactly once. -/
theorem result_slot_write_counts_counterexample :
    countResultWrites (CheckWeakCurve.writes [] [(⟨1, 0, 0⟩ : ECInfo)]) 0 = 0 ∧
    ¬ countResultWrites
        (CheckWeakCurve.writes [] [(⟨1, 0, 0⟩ : ECInfo)]) 0 = 1 := by
  decide

/-- Claim C7 (amended): per check invocation no artifact's result slot
is ever written more than once; `CheckValidECKey.Check` writes each
artifact's slot exactly once, while `CheckWeakCurve.Check` and
`CheckWeakECPrivateKey.Check` write a slot exactly once when the
artifact's curve identifier resolves to a known curve and zero times
when it does not. -/
theorem result_slot_write_counts (reg : Registry) (infos : List ECInfo)
    (idx : Nat) (h : idx < infos.length)
    (hnd : (reg.map Prod.fst).Nodup) :
    countResultWrites (CheckValidECKey.writes reg infos) idx = 1 ∧
    countResultWrites (CheckWeakCurve.writes reg infos) idx =
      (if (factoryGet reg infos[idx].curve_type).isSome then 1 else 0) ∧
    countResultWrites (CheckWeakECPrivateKey.writes reg infos) idx =
      (if (factoryGet reg infos[idx].curve_type).isSome then 1 else 0) := by
  refine ⟨?_, ?_, ?_⟩
  · rw [countResultWrites, CheckValidECKey.writes, List.countP_map]
    rw [countP_enumFromIdx_eq infos 0 idx _ (fun p hp => by
      simpa [Function.comp] using hp)]
    simp [List.getElem?_eq_getElem h, Function.comp]
  · rw [countResultWrites, CheckWeakCurve.writes, countP_flatten_map]
    have hpt : ∀ p ∈ enumFromIdx 0 infos,
        ((match checkWeakCurveStep reg p.2 with
          | none => ([] : List WriteEvent)
          | some tr => [WriteEvent.setResult p.1 tr]).countP
            fun e => match e with
            | WriteEvent.setResult i _ => i == idx
            | WriteEvent.attach _ _ _ => false) =
        (if (checkWeakCurveStep reg p.2).isSome && (p.1 == idx)
         then 1 else 0) := by
      intro p hp
      cases hsp : checkWeakCurveStep reg p.2 with
      | none => simp
      | some tr =>
        cases hb : (p.1 == idx) <;> simp [List.countP_cons, hb]
    rw [List.map_congr_left hpt]
    rw [sum_map_ite_eq_countP]
    rw [countP_enumFromIdx_eq infos 0 idx _ (fun p hp => by
      simp only [Bool.and_eq_true, beq_iff_eq] at hp
      exact hp.2)]
    simp [List.getElem?_eq_getElem h, checkWeakCurveStep_isSome]
  · rw [countResultWrites, CheckWeakECPrivateKey.writes, countP_flatten_map]
    have hpt : ∀ entry ∈ reg,
        ((match entry.2 with
          | none => ([] : List WriteEvent)
          | some curve =>
            let keys := batchKeys infos entry.1
            if keys.isEmpty then [] else privBatchEvents curve keys).countP
            fun e => match e with
            | WriteEvent.setResult i _ => i == idx
            | WriteEvent.attach _ _ _ => false) =
        (match entry.2 with
         | none => 0
         | some _ => if infos[idx].curve_type = entry.1 then 1 else 0) := by
      intro entry hentry
      obtain ⟨cid, oc⟩ := entry
      cases oc with
      | none => simp
      | some curve =>
        simp only
        by_cases hke : (batchKeys infos cid).isEmpty
        · rw [if_pos hke]
          have hkeys : batchKeys infos cid = [] :=
            List.isEmpty_iff.mp hke
          have hc := countP_fst_batchKeys infos cid idx h
          rw [hkeys] at hc
          rw [← hc]
          rfl
        · rw [if_neg hke]
          have := countResultWrites_privBatchEvents curve
            (batchKeys infos cid) idx
          rw [countResultWrites] at this
          rw [this, countP_fst_batchKeys infos cid idx h]
    rw [List.map_congr_left hpt]
    rw [registry_sum_indicator reg infos[idx].curve_type hnd _ (fun e he => by
      obtain ⟨e1, e2⟩ := e
      cases e2 with
      | none => rfl
      | some c =>
        simp only
        rw [if_neg]
        intro hc
        exact he hc.symm)]
    rw [factoryGet]
    cases hl : reg.lookup infos[idx].curve_type with
    | none => simp
    | some v =>
      cases v with
      | none => simp
      | some c => simp

/-- Witness for the amended C7 on a two-artifact batch: the known-curve
artifact's slot is written once by each check, the unknown-curve
artifact's slot once by the validity check and zero times by the other
two. -/
theorem result_slot_write_counts_witness :
    1 < ([(⟨1, 0, 0⟩ : ECInfo), ⟨9, 0, 0⟩]).length ∧
    ([((1 : Nat), some (sampleCurve 5))].map Prod.fst).Nodup ∧
    (countResultWrites (CheckValidECKey.writes [(1, some (sampleCurve 5))]
        [⟨1, 0, 0⟩, ⟨9, 0, 0⟩]) 1 = 1 ∧
     countResultWrites (CheckWeakCurve.writes [(1, some (sampleCurve 5))]
        [⟨1, 0, 0⟩, ⟨9, 0, 0⟩]) 1 =
       (if (factoryGet [(1, some (sampleCurve 5))]
          (([(⟨1, 0, 0⟩ : ECInfo), ⟨9, 0, 0⟩])[1]).curve_type).isSome
        then 1 else 0) ∧
     countResultWrites (CheckWeakECPrivateKey.writes
        [(1, some (sampleCurve 5))] [⟨1, 0, 0⟩, ⟨9, 0, 0⟩]) 1 =
       (if (factoryGet [(1, some (sampleCurve 5))]
          (([(⟨1, 0, 0⟩ : ECInfo), ⟨9, 0, 0⟩])[1]).curve_type).isSome
        then 1 else 0)) :=
  ⟨by decide, by decide,
   result_slot_write_counts [(1, some (sampleCurve 5))]
     [⟨1, 0, 0⟩, ⟨9, 0, 0⟩] 1 (by decide) (by decide)⟩
